import Mathlib

/-!
Verification development for the microsoft/tracelogging Rust repository
(etw/rust: tracelogging, tracelogging_dynamic crates).

Shallow embedding conventions:
- Rust machine integers are modelled as Nat, with explicit truncation
  (percent 2 pow w) exactly where the Rust code wraps or casts.
- Rust i64 / i32 values are modelled as Int where signedness matters.
- Byte slices and Vec buffers are modelled as List Nat (each element a byte).
- Stateful code is modelled by explicit state passing.
-/

namespace TraceLogging

/-- Truncating cast to u8, i.e. the Rust expression x as u8. -/
def toU8 (x : Nat) : Nat := x % 256

/-- Semantics of the Rust primitive u32::from_be_bytes applied to four bytes
(each byte is assumed to be less than 256, as guaranteed by the u8 type). -/
def u32_from_be_bytes (b0 b1 b2 b3 : Nat) : Nat :=
  b0 * 2 ^ 24 + b1 * 2 ^ 16 + b2 * 2 ^ 8 + b3

/-- Semantics of the Rust primitive u32::from_le_bytes applied to four bytes. -/
def u32_from_le_bytes (b0 b1 b2 b3 : Nat) : Nat :=
  b3 * 2 ^ 24 + b2 * 2 ^ 16 + b1 * 2 ^ 8 + b0

/-- Semantics of the Rust primitive u16::from_be_bytes. -/
def u16_from_be_bytes (b0 b1 : Nat) : Nat := b0 * 2 ^ 8 + b1

/-- Semantics of the Rust primitive u16::from_le_bytes. -/
def u16_from_le_bytes (b0 b1 : Nat) : Nat := b1 * 2 ^ 8 + b0

/-- Semantics of the Rust primitive u64::to_be_bytes: the eight bytes of a
u64 value in big-endian order. -/
def u64_be_bytes (x : Nat) : List Nat :=
  [toU8 (x >>> 56), toU8 (x >>> 48), toU8 (x >>> 40), toU8 (x >>> 32),
   toU8 (x >>> 24), toU8 (x >>> 16), toU8 (x >>> 8), toU8 x]

/-- Semantics of the Rust primitive u32::to_be_bytes. -/
def u32_be_bytes (x : Nat) : List Nat :=
  [toU8 (x >>> 24), toU8 (x >>> 16), toU8 (x >>> 8), toU8 x]

/-- Semantics of the Rust primitive u64::from_be_bytes applied to a list of
eight bytes. -/
def u64_from_be_bytes (b : List Nat) : Nat :=
  b.getD 0 0 * 2 ^ 56 + b.getD 1 0 * 2 ^ 48 + b.getD 2 0 * 2 ^ 40 +
  b.getD 3 0 * 2 ^ 32 + b.getD 4 0 * 2 ^ 24 + b.getD 5 0 * 2 ^ 16 +
  b.getD 6 0 * 2 ^ 8 + b.getD 7 0

/-- GUID (UUID), from tracelogging/src/guid.rs. Stored as integer fields
(data1 : u32, data2 : u16, data3 : u16, data4 : 8 bytes). -/
structure Guid where
  data1 : Nat
  data2 : Nat
  data3 : Nat
  data4 : List Nat
deriving DecidableEq, Repr

namespace Guid

/-- Well-formedness of the Nat-based model: each field is in the range of
its Rust machine-integer type. -/
def WellFormed (g : Guid) : Prop :=
  g.data1 < 2 ^ 32 ∧ g.data2 < 2 ^ 16 ∧ g.data3 < 2 ^ 16 ∧
  g.data4.length = 8 ∧ ∀ i, g.data4.getD i 0 < 256

instance instDecWellFormed (g : Guid) : Decidable g.WellFormed :=
  decidable_of_iff
    (g.data1 < 2 ^ 32 ∧ g.data2 < 2 ^ 16 ∧ g.data3 < 2 ^ 16 ∧ g.data4.length = 8 ∧
      ∀ i < g.data4.length, g.data4.getD i 0 < 256)
    (by
      unfold WellFormed
      refine and_congr_right fun _ => and_congr_right fun _ =>
        and_congr_right fun _ => and_congr_right fun _ => ⟨?_, ?_⟩
      · intro h i
        by_cases hi : i < g.data4.length
        · exact h i hi
        · rw [List.getD_eq_default _ _ (Nat.le_of_not_lt hi)]
          omega
      · intro h i _
        exact h i)

/-- Guid::zero from guid.rs. -/
def zero : Guid := ⟨0, 0, 0, List.replicate 8 0⟩

/-- Guid::from_fields from guid.rs. -/
def from_fields (data1 data2 data3 : Nat) (data4 : List Nat) : Guid :=
  ⟨data1, data2, data3, data4⟩

/-- Guid::from_bytes_be from guid.rs: creates a GUID from 16 bytes in RFC
(big-endian) byte order. -/
def from_bytes_be (b : List Nat) : Guid :=
  { data1 := u32_from_be_bytes (b.getD 0 0) (b.getD 1 0) (b.getD 2 0) (b.getD 3 0)
    data2 := u16_from_be_bytes (b.getD 4 0) (b.getD 5 0)
    data3 := u16_from_be_bytes (b.getD 6 0) (b.getD 7 0)
    data4 := [b.getD 8 0, b.getD 9 0, b.getD 10 0, b.getD 11 0,
              b.getD 12 0, b.getD 13 0, b.getD 14 0, b.getD 15 0] }

/-- Guid::from_bytes_le from guid.rs: creates a GUID from 16 bytes in
Windows (little-endian) byte order. -/
def from_bytes_le (b : List Nat) : Guid :=
  { data1 := u32_from_le_bytes (b.getD 0 0) (b.getD 1 0) (b.getD 2 0) (b.getD 3 0)
    data2 := u16_from_le_bytes (b.getD 4 0) (b.getD 5 0)
    data3 := u16_from_le_bytes (b.getD 6 0) (b.getD 7 0)
    data4 := [b.getD 8 0, b.getD 9 0, b.getD 10 0, b.getD 11 0,
              b.getD 12 0, b.getD 13 0, b.getD 14 0, b.getD 15 0] }

/-- Guid::from_u128 from guid.rs. The u128 value is an argument below 2 pow 128;
wrapping_shr by 96/80/64 and the casts to u32/u16 are modelled exactly.
u32::from_le / u16::from_le are the identity on the little-endian hosts this
crate targets. -/
def from_u128 (value : Nat) : Guid :=
  { data1 := (value >>> 96) % 2 ^ 32
    data2 := (value >>> 80) % 2 ^ 16
    data3 := (value >>> 64) % 2 ^ 16
    data4 := u64_be_bytes (value % 2 ^ 64) }

/-- Guid::to_bytes_be from guid.rs: the bytes of the GUID in RFC byte order
(big-endian); each as u8 cast truncates. -/
def to_bytes_be (g : Guid) : List Nat :=
  [toU8 (g.data1 >>> 24), toU8 (g.data1 >>> 16), toU8 (g.data1 >>> 8), toU8 g.data1,
   toU8 (g.data2 >>> 8), toU8 g.data2,
   toU8 (g.data3 >>> 8), toU8 g.data3,
   g.data4.getD 0 0, g.data4.getD 1 0, g.data4.getD 2 0, g.data4.getD 3 0,
   g.data4.getD 4 0, g.data4.getD 5 0, g.data4.getD 6 0, g.data4.getD 7 0]

/-- Guid::to_bytes_le from guid.rs: the bytes of the GUID in Windows byte
order (little-endian). -/
def to_bytes_le (g : Guid) : List Nat :=
  [toU8 g.data1, toU8 (g.data1 >>> 8), toU8 (g.data1 >>> 16), toU8 (g.data1 >>> 24),
   toU8 g.data2, toU8 (g.data2 >>> 8),
   toU8 g.data3, toU8 (g.data3 >>> 8),
   g.data4.getD 0 0, g.data4.getD 1 0, g.data4.getD 2 0, g.data4.getD 3 0,
   g.data4.getD 4 0, g.data4.getD 5 0, g.data4.getD 6 0, g.data4.getD 7 0]

/-- Guid::to_u128 from guid.rs:
(data1 << 96) | (data2 << 80) | (data3 << 64) | u64::from_be_bytes(data4).
u32::to_le / u16::to_le are the identity on little-endian hosts. -/
def to_u128 (g : Guid) : Nat :=
  (g.data1 <<< 96) ||| (g.data2 <<< 80) ||| (g.data3 <<< 64) |||
    u64_from_be_bytes g.data4

end Guid

/-!
SHA-1 hasher Sha1NonSecret from tracelogging/src/guid.rs, and
Guid::from_name built on it.
-/

/-- Rust u32::rotate_left semantics for x below 2 pow 32, 0 < n < 32. -/
def rotl32 (x n : Nat) : Nat := ((x <<< n) ||| (x >>> (32 - n))) % 2 ^ 32

/-- Complement within u32, i.e. the Rust expression !x on u32. -/
def not32 (x : Nat) : Nat := 0xFFFFFFFF ^^^ x

/-- State of the streaming hasher Sha1NonSecret (guid.rs): a 64-byte chunk
buffer, a chunk counter (u32), the position within the current chunk, and
the five 32-bit accumulators. -/
structure Sha1NonSecret where
  chunk : List Nat
  chunk_count : Nat
  chunk_pos : Nat
  results : List Nat
deriving DecidableEq, Repr

namespace Sha1NonSecret

/-- Sha1NonSecret::new from guid.rs. -/
def new : Sha1NonSecret :=
  { chunk := List.replicate 64 0
    chunk_count := 0
    chunk_pos := 0
    results := [0x67452301, 0xEFCDAB89, 0x98BADCFE, 0x10325476, 0xC3D2E1F0] }

/-- The first 16 words of the message schedule: the chunk bytes read as
big-endian u32 words (the first loop of drain). -/
def wordsOfChunk (chunk : List Nat) : List Nat :=
  (List.range 16).map fun i =>
    u32_from_be_bytes (chunk.getD (i * 4) 0) (chunk.getD (i * 4 + 1) 0)
      (chunk.getD (i * 4 + 2) 0) (chunk.getD (i * 4 + 3) 0)

/-- The message-schedule expansion loop of drain: repeatedly append
rotl(w(n-3) xor w(n-8) xor w(n-14) xor w(n-16), 1). -/
def expandW (w : List Nat) : Nat → List Nat
  | 0 => w
  | n + 1 =>
    expandW
      (w ++ [rotl32 ((w.getD (w.length - 3) 0) ^^^ (w.getD (w.length - 8) 0) ^^^
        (w.getD (w.length - 14) 0) ^^^ (w.getD (w.length - 16) 0)) 1]) n

/-- Round function of the four round loops of drain (identical loop bodies,
differing only in f and the constant K, selected by the round index). -/
def sha1F (i b c d : Nat) : Nat :=
  if i < 20 then (b &&& c) ||| ((not32 b) &&& d)
  else if i < 40 then b ^^^ c ^^^ d
  else if i < 60 then (b &&& c) ||| (b &&& d) ||| (c &&& d)
  else b ^^^ c ^^^ d

/-- Round constant of the four round loops of drain. -/
def sha1K (i : Nat) : Nat :=
  if i < 20 then 0x5A827999
  else if i < 40 then 0x6ED9EBA1
  else if i < 60 then 0x8F1BBCDC
  else 0xCA62C1D6

/-- One iteration of the round loops of drain, acting on (a, b, c, d, e). -/
def sha1Round (w : List Nat) (st : Nat × Nat × Nat × Nat × Nat) (i : Nat) :
    Nat × Nat × Nat × Nat × Nat :=
  let (a, b, c, d, e) := st
  let temp := (rotl32 a 5 + sha1F i b c d + e + sha1K i + w.getD i 0) % 2 ^ 32
  (temp, a, rotl32 b 30, c, d)

/-- The pure compression step of drain: message schedule, 80 rounds, and
the wrapping addition of the round output into the accumulators. -/
def sha1Compress (results chunk : List Nat) : List Nat :=
  let w := expandW (wordsOfChunk chunk) 64
  let st0 := (results.getD 0 0, results.getD 1 0, results.getD 2 0,
    results.getD 3 0, results.getD 4 0)
  let st := (List.range 80).foldl (sha1Round w) st0
  [(results.getD 0 0 + st.1) % 2 ^ 32,
   (results.getD 1 0 + st.2.1) % 2 ^ 32,
   (results.getD 2 0 + st.2.2.1) % 2 ^ 32,
   (results.getD 3 0 + st.2.2.2.1) % 2 ^ 32,
   (results.getD 4 0 + st.2.2.2.2) % 2 ^ 32]

/-- Sha1NonSecret::drain from guid.rs: compress the current chunk into the
accumulators and bump the (u32, wrapping) chunk counter. -/
def drain (s : Sha1NonSecret) : Sha1NonSecret :=
  { s with
    results := sha1Compress s.results s.chunk
    chunk_count := (s.chunk_count + 1) % 2 ^ 32 }

/-- Sha1NonSecret::write_u8 from guid.rs: store the byte at chunk_pos,
advance chunk_pos modulo 64 (the source masks with 63) and drain when the
chunk wraps around to position 0. -/
def write_u8 (s : Sha1NonSecret) (val : Nat) : Sha1NonSecret :=
  let s1 : Sha1NonSecret :=
    { s with
      chunk := s.chunk.set s.chunk_pos val
      chunk_pos := (s.chunk_pos + 1) % 64 }
  if s1.chunk_pos = 0 then s1.drain else s1

/-- Sha1NonSecret::write from guid.rs: write each byte in order. -/
def write (s : Sha1NonSecret) (bytes : List Nat) : Sha1NonSecret :=
  bytes.foldl write_u8 s

/-- Sha1NonSecret::finish from guid.rs. The while loop that pads with zero
bytes until chunk_pos is 56 runs exactly (56 + 64 - pos) mod 64 times where
pos is the position after the 0x80 end-bit byte, so it is written as that
many zero-byte writes. total_bit_count is computed as u64 from the values
captured before the padding writes. -/
def finish (s : Sha1NonSecret) : List Nat :=
  let total_bit_count := (s.chunk_count * 512 + s.chunk_pos * 8) % 2 ^ 64
  let s1 := s.write ([0x80] ++
    List.replicate ((56 + 64 - (s.chunk_pos + 1) % 64) % 64) 0 ++
    u64_be_bytes total_bit_count)
  u32_be_bytes (s1.results.getD 0 0) ++ u32_be_bytes (s1.results.getD 1 0) ++
  u32_be_bytes (s1.results.getD 2 0) ++ u32_be_bytes (s1.results.getD 3 0) ++
  u32_be_bytes (s1.results.getD 4 0)

end Sha1NonSecret

namespace Guid

/-- The fixed 16-byte namespace constant hashed first by Guid::from_name. -/
def from_name_namespace : List Nat :=
  [0x48, 0x2C, 0x2D, 0xB2, 0xC3, 0x90, 0x47, 0xC8,
   0x87, 0xF8, 0x1A, 0x15, 0xBF, 0xC1, 0x30, 0xFB]

/-- Semantics of char::encode_utf16 followed by u16::to_be_bytes for each
code unit: the big-endian UTF-16 bytes of one Unicode scalar value. -/
def utf16be_bytes_of_char (c : Nat) : List Nat :=
  if c < 0x10000 then [toU8 (c >>> 8), toU8 c]
  else
    let v := c - 0x10000
    let hi := 0xD800 + (v >>> 10)
    let lo := 0xDC00 + (v % 2 ^ 10)
    [toU8 (hi >>> 8), toU8 hi, toU8 (lo >>> 8), toU8 lo]

/-- Model of char::to_uppercase (Rust standard library) restricted to the
ASCII range: an ASCII lowercase letter maps to the corresponding uppercase
letter, any other scalar value maps to itself. The full Unicode case
mapping table is outside the scope of this model; every concrete input
used below is ASCII, where this model agrees with the library. -/
def rust_char_to_uppercase (c : Nat) : List Nat :=
  if 97 ≤ c ∧ c ≤ 122 then [c - 32] else [c]

/-- Guid::from_name from guid.rs, parameterized by the case-folding
expansion upper (the source uses char::to_uppercase). The provider name is
a list of Unicode scalar values; each uppercased scalar is hashed as its
big-endian UTF-16 code units, after the namespace constant. -/
def from_name_with (upper : Nat → List Nat) (name : List Nat) : Guid :=
  let h0 := Sha1NonSecret.new.write from_name_namespace
  let h1 := (name.flatMap upper).foldl
    (fun h c => h.write (utf16be_bytes_of_char c)) h0
  let v := h1.finish
  from_bytes_le
    [v.getD 0 0, v.getD 1 0, v.getD 2 0, v.getD 3 0,
     v.getD 4 0, v.getD 5 0, v.getD 6 0,
     ((v.getD 7 0) &&& 0x0F) ||| 0x50,
     v.getD 8 0, v.getD 9 0, v.getD 10 0, v.getD 11 0,
     v.getD 12 0, v.getD 13 0, v.getD 14 0, v.getD 15 0]

/-- Guid::from_name from guid.rs, with the ASCII model of the case folding. -/
def from_name (name : List Nat) : Guid :=
  from_name_with rust_char_to_uppercase name

end Guid

/-- The scalar values of the string myprovider. -/
def myproviderLower : List Nat :=
  [0x6D, 0x79, 0x70, 0x72, 0x6F, 0x76, 0x69, 0x64, 0x65, 0x72]

/-- The scalar values of the string MYPROVIDER. -/
def myproviderUpper : List Nat :=
  [0x4D, 0x59, 0x50, 0x52, 0x4F, 0x56, 0x49, 0x44, 0x45, 0x52]

/-!
One-shot SHA-1 and the claim-side pipeline of Guid::from_name, modelled
from the specification words (section 4.1).
-/

/-- Standard SHA-1 padding, modelled from the specification words: the 0x80
end bit, zero padding until the length is 56 modulo 64, and the 8-byte
big-endian total bit count. -/
def sha1_pad (msg : List Nat) : List Nat :=
  msg ++ [0x80] ++ List.replicate ((56 + 64 - (msg.length + 1) % 64) % 64) 0 ++
    u64_be_bytes ((msg.length * 8) % 2 ^ 64)

/-- Fuel-driven split of a byte list into consecutive 64-byte blocks. -/
def chunks64Go : Nat → List Nat → List (List Nat)
  | 0, _ => []
  | _ + 1, [] => []
  | fuel + 1, x :: xs => ((x :: xs).take 64) :: chunks64Go fuel ((x :: xs).drop 64)

/-- The consecutive 64-byte blocks of a byte list. -/
def chunks64 (l : List Nat) : List (List Nat) := chunks64Go l.length l

/-- One-shot SHA-1 digest of a whole message, modelled from the
specification words in section 4.1: pad, compress each 64-byte block in
order into the five accumulators, output the accumulators as big-endian
bytes. The compression function is shared with the embedded hasher. -/
def sha1_spec (msg : List Nat) : List Nat :=
  let res := (chunks64 (sha1_pad msg)).foldl Sha1NonSecret.sha1Compress
    Sha1NonSecret.new.results
  u32_be_bytes (res.getD 0 0) ++ u32_be_bytes (res.getD 1 0) ++
  u32_be_bytes (res.getD 2 0) ++ u32_be_bytes (res.getD 3 0) ++
  u32_be_bytes (res.getD 4 0)

/-- The byte sequence that the C1 claim says is hashed by Guid::from_name:
the fixed 16-byte namespace constant followed by the upper-cased input text
re-encoded as big-endian UTF-16 code units. -/
def from_name_message (upper : Nat → List Nat) (name : List Nat) : List Nat :=
  Guid.from_name_namespace ++
    (name.flatMap upper).flatMap Guid.utf16be_bytes_of_char

/-- The first 16 bytes of a digest with byte 7 overwritten by
(byte7 and 0x0F) or 0x50, as described by the C1 claim. -/
def digest16_patched (v : List Nat) : List Nat :=
  [v.getD 0 0, v.getD 1 0, v.getD 2 0, v.getD 3 0,
   v.getD 4 0, v.getD 5 0, v.getD 6 0,
   ((v.getD 7 0) &&& 0x0F) ||| 0x50,
   v.getD 8 0, v.getD 9 0, v.getD 10 0, v.getD 11 0,
   v.getD 12 0, v.getD 13 0, v.getD 14 0, v.getD 15 0]

/-- The C1 claim as stated: hash the from_name message with SHA-1, patch
byte 7, and interpret the 16 bytes in RFC (big-endian) byte order. -/
def from_name_spec_be (upper : Nat → List Nat) (name : List Nat) : Guid :=
  Guid.from_bytes_be (digest16_patched (sha1_spec (from_name_message upper name)))

/-- The amended C1 claim: as from_name_spec_be but interpreting the 16
bytes in Windows (little-endian) byte order. -/
def from_name_spec_le (upper : Nat → List Nat) (name : List Nat) : Guid :=
  Guid.from_bytes_le (digest16_patched (sha1_spec (from_name_message upper name)))

/-- The effect on the 64-byte chunk buffer of storing a run of bytes at
consecutive positions starting at p. -/
def listOverwrite (c : List Nat) (p : Nat) : List Nat → List Nat
  | [] => c
  | x :: xs => listOverwrite (c.set p x) (p + 1) xs

/-!
Internal helpers from tracelogging/src/_internal.rs.
-/

/-- tag_size from _internal.rs: number of bytes needed to encode a tag. -/
def tag_size (tag : Nat) : Nat :=
  if 0 = (tag &&& 0x001FFFFF) then 1
  else if 0 = (tag &&& 0x00003FFF) then 2
  else if 0 = (tag &&& 0x0000007F) then 3
  else 4

/-- The loop of tag_encode from _internal.rs: each output byte is
(bits >> 21) and 0x7F, or-ed with 0x80 on every byte except the last;
bits shifts left by 7 (u32, truncating). -/
def tag_encode_loop (bits : Nat) : Nat → List Nat
  | 0 => []
  | n + 1 =>
    (((bits >>> 21) &&& 0x7F) ||| if n = 0 then 0 else 0x80) ::
      tag_encode_loop ((bits <<< 7) % 2 ^ 32) n

/-- tag_encode (with const generic SIZE) from _internal.rs. -/
def tag_encode (size : Nat) (tag : Nat) : List Nat := tag_encode_loop tag size

/-- The i64 value of a u64 bit pattern, i.e. the Rust expression x as i64. -/
def u64_as_i64 (x : Nat) : Int :=
  if x < 2 ^ 63 then (x : Int) else (x : Int) - 2 ^ 64

/-- Constant from filetime_from_duration_since_1970 (_internal.rs). -/
def FILETIME_MAX : Nat := 0x7FFF35F4F06C7FFF

/-- Constant from filetime_from_duration_since_1970 (_internal.rs). -/
def UNIX_EPOCH_FILETIME : Nat := 0x19DB1DED53E8000

/-- Constant from filetime_from_duration_since_1970 (_internal.rs). -/
def FILETIME_PER_SECOND : Nat := 10000000

/-- Constant from filetime_from_duration_since_1970 (_internal.rs). -/
def NANOS_MAX : Nat := 1000000000

/-- Constant from filetime_from_duration_since_1970 (_internal.rs). -/
def NANOS_PER_FILETIME : Nat := 100

/-- Constant from filetime_from_duration_since_1970 (_internal.rs):
FILETIME_MIN is 0. -/
def SECS_MAX_POS : Nat := (FILETIME_MAX - UNIX_EPOCH_FILETIME) / FILETIME_PER_SECOND

/-- Constant from filetime_from_duration_since_1970 (_internal.rs). -/
def SECS_MAX_NEG : Nat := (UNIX_EPOCH_FILETIME - 0) / FILETIME_PER_SECOND - 1

/-- filetime_from_duration_since_1970 from _internal.rs. The duration is
given as secs (u64) and nanos (u32, below NANOS_MAX per the Duration
invariant); the wrapping u64 arithmetic and the final as i64 cast are
modelled explicitly. -/
def filetime_from_duration_since_1970 (secs nanos : Nat) (positive : Bool) : Int :=
  u64_as_i64 (
    if positive then
      if secs ≤ SECS_MAX_POS then
        ((UNIX_EPOCH_FILETIME + (secs * FILETIME_PER_SECOND) % 2 ^ 64) % 2 ^ 64 +
          nanos / NANOS_PER_FILETIME) % 2 ^ 64
      else FILETIME_MAX
    else if secs ≤ SECS_MAX_NEG then
      (((UNIX_EPOCH_FILETIME - NANOS_MAX / NANOS_PER_FILETIME) +
          (2 ^ 64 - (secs * FILETIME_PER_SECOND) % 2 ^ 64)) % 2 ^ 64 +
        (NANOS_MAX - nanos) / NANOS_PER_FILETIME) % 2 ^ 64
    else 0)

/-!
Native transport binding from tracelogging/src/native.rs, in the
windows + etw configuration (the one where enabled performs the
level/keyword test).
-/

/-- ProviderContextInner from native.rs: level is i32 (-1 means not
enabled by anybody), reg_handle the OS registration handle (0 when
unregistered), and the two keyword masks of the attached session. The
atomic busy flag and the callback context are plain data here; the
callback function pointer does not affect enabled. -/
structure ProviderContextInner where
  level : Int
  busy : Bool
  reg_handle : Nat
  keyword_any : Nat
  keyword_all : Nat
  callback_context : Nat
deriving DecidableEq, Repr

namespace ProviderContextInner

/-- ProviderContextInner::new from native.rs. -/
def new : ProviderContextInner := ⟨-1, false, 0, 0, 0, 0⟩

/-- ProviderContextInner::enabled_keyword from native.rs. -/
def enabled_keyword (s : ProviderContextInner) (keyword : Nat) : Bool :=
  keyword == 0 ||
    ((keyword &&& s.keyword_any) != 0 &&
      (keyword &&& s.keyword_all) == s.keyword_all)

/-- ProviderContext::enabled from native.rs (windows + etw configuration):
the caller level is the u8 payload of Level, compared as i32 against the
stored filter level, and-ed with the keyword test. -/
def enabled (s : ProviderContextInner) (level : Nat) (keyword : Nat) : Bool :=
  decide ((level : Int) ≤ s.level) && s.enabled_keyword keyword

/-- A context is registered exactly when its registration handle is
nonzero (specification section 3: reg_handle == 0 iff unregistered). -/
def registered (s : ProviderContextInner) : Prop := s.reg_handle ≠ 0

end ProviderContextInner

/-!
Wire descriptor structures from tracelogging/src/descriptors.rs.
-/

/-- EventDescriptor from descriptors.rs. Channel, Level, Opcode are u8
taxonomy values (TraceClassic = 0, TraceLogging = 11, LogAlways = 0,
Info = 0, from enums.rs). -/
structure EventDescriptor where
  id : Nat
  version : Nat
  channel : Nat
  level : Nat
  opcode : Nat
  task : Nat
  keyword : Nat
deriving DecidableEq, Repr

namespace EventDescriptor

/-- EventDescriptor::zero from descriptors.rs (channel = TraceClassic = 0,
level = LogAlways = 0, opcode = Info = 0). -/
def zero : EventDescriptor := ⟨0, 0, 0, 0, 0, 0, 0⟩

/-- EventDescriptor::new from descriptors.rs (channel = TraceLogging = 11,
opcode = Info = 0). -/
def new (level keyword : Nat) : EventDescriptor := ⟨0, 0, 11, level, 0, 0, keyword⟩

end EventDescriptor

/-- EventDataDescriptor from descriptors.rs, for a block whose elements
have byte size sz (modelling size_of::<T>()): data models the slice the
ptr field points at (raw pointer values are not modelled), size the u32
size field, reserved the discriminant. -/
structure EventDataDescriptor (α : Type) where
  data : List α
  size : Nat
  reserved : Nat
deriving DecidableEq, Repr

namespace EventDataDescriptor

/-- EventDataDescriptor::from_raw_bytes from descriptors.rs. -/
def from_raw_bytes (value : List Nat) (reserved : Nat) : EventDataDescriptor Nat :=
  ⟨value, value.length % 2 ^ 32, reserved⟩

/-- EventDataDescriptor::from_counted from descriptors.rs: truncate to at
most 65535 / sz elements, size = sz * length in u32 arithmetic. -/
def from_counted {α : Type} (sz : Nat) (value : List α) : EventDataDescriptor α :=
  let max_len := 65535 / sz
  let v := if max_len < value.length then value.take max_len else value
  ⟨v, ((sz % 2 ^ 32) * (v.length % 2 ^ 32)) % 2 ^ 32, 0⟩

/-- EventDataDescriptor::from_slice from descriptors.rs: truncate to at
most 65535 elements. -/
def from_slice {α : Type} (sz : Nat) (value : List α) : EventDataDescriptor α :=
  let v := if 65535 < value.length then value.take 65535 else value
  ⟨v, ((sz % 2 ^ 32) * (v.length % 2 ^ 32)) % 2 ^ 32, 0⟩

end EventDataDescriptor

/-- safe_len from descriptors.rs (max_len : u16, len : usize; the len as
u16 cast truncates). -/
def safe_len (max_len len : Nat) : Nat :=
  if max_len < len then max_len else len % 2 ^ 16

/-- counted_size from descriptors.rs (u16 arithmetic with truncating
casts). -/
def counted_size {α : Type} (sz : Nat) (value : List α) : Nat :=
  ((sz % 2 ^ 16) * safe_len ((65535 / sz) % 2 ^ 16) value.length) % 2 ^ 16

/-- slice_count from descriptors.rs. -/
def slice_count {α : Type} (value : List α) : Nat :=
  safe_len 65535 value.length

/-!
Dynamic event builder from tracelogging_dynamic/src/builder.rs.
-/

/-- Guid::as_bytes_raw. Modelled from the spec: the identifier is stored
in host-native field order, the conventional Windows mixed-endian layout
(section 3), so the raw in-memory bytes on a little-endian host are the
Windows byte order of to_bytes_le. The method body is code of this
repository that is not under src (builder.rs calls it on the tracelogging
crate Guid). -/
def Guid.as_bytes_raw (g : Guid) : List Nat := g.to_bytes_le

/-- EventBuilder from builder.rs: metadata buffer, data buffer, event
descriptor. -/
structure EventBuilder where
  meta : List Nat
  data : List Nat
  descriptor : EventDescriptor
deriving DecidableEq, Repr

namespace EventBuilder

/-- EventBuilder::new_with_capacity from builder.rs: capacities affect
only allocation; the metadata buffer starts as 4 zero bytes (size
placeholder, tag, name terminator). -/
def new_with_capacity : EventBuilder := ⟨[0, 0, 0, 0], [], EventDescriptor.zero⟩

/-- EventBuilder::new from builder.rs. -/
def new : EventBuilder := new_with_capacity

/-- EventBuilder::reset from builder.rs: clear both buffers, record the
descriptor, push the 2-byte size placeholder, the variable-length event
tag (1, 2 or 4 bytes), then the nul-terminated event name. Each as u8
cast truncates to a byte. -/
def reset (b : EventBuilder) (name : List Nat) (level : Nat) (keyword : Nat)
    (event_tag : Nat) : EventBuilder :=
  let tagBytes :=
    if event_tag &&& 0x0FE00000 = event_tag then
      [(event_tag >>> 21) % 256]
    else if event_tag &&& 0x0FFFC000 = event_tag then
      [((event_tag >>> 21) % 256) ||| 0x80, ((event_tag >>> 14) % 256) &&& 0x7F]
    else
      [((event_tag >>> 21) % 256) ||| 0x80, ((event_tag >>> 14) % 256) ||| 0x80,
       ((event_tag >>> 7) % 256) ||| 0x80, (event_tag % 256) &&& 0x7F]
  { meta := [0, 0] ++ tagBytes ++ name ++ [0]
    data := []
    descriptor := EventDescriptor.new level keyword }

/-- EventBuilder::raw_add_meta from builder.rs: nul-terminated field name,
then for a nonzero field tag the 0x80-flagged in-type and out-type bytes
and four tag bytes, for a zero tag but nonzero out-type the 0x80-flagged
in-type byte and the out-type byte, else the bare in-type byte. -/
def raw_add_meta (b : EventBuilder) (field_name : List Nat)
    (in_type out_type : Nat) (field_tag : Nat) : EventBuilder :=
  let fieldBytes :=
    if field_tag ≠ 0 then
      [0x80 ||| in_type, 0x80 ||| out_type,
       0x80 ||| ((field_tag >>> 21) % 256), 0x80 ||| ((field_tag >>> 14) % 256),
       0x80 ||| ((field_tag >>> 7) % 256), (0x7F &&& field_tag) % 256]
    else if out_type ≠ 0 then
      [0x80 ||| in_type, out_type]
    else
      [in_type]
  { b with meta := b.meta ++ field_name ++ [0] ++ fieldBytes }

end EventBuilder

/-- One invocation of the native transport write_transfer as forwarded by
EventBuilder::write: the event descriptor, the optional activity and
related ids (as raw 16-byte arrays), and the data descriptor array. -/
structure TransportCall where
  descriptor : EventDescriptor
  activity_id : Option (List Nat)
  related_id : Option (List Nat)
  data : List (EventDataDescriptor Nat)
deriving DecidableEq, Repr

namespace EventBuilder

/-- EventBuilder::write from builder.rs. The native write_transfer entry
point is a parameter (its numeric result is returned on the non-overflow
path); the Option TransportCall in the result records the forwarded call,
none when the overflow path returns 534 without calling the native
layer. -/
def write
    (transport : EventDescriptor → Option (List Nat) → Option (List Nat) →
      List (EventDataDescriptor Nat) → Nat)
    (b : EventBuilder) (provider_meta : List Nat)
    (activity_id related_id : Option Guid) :
    Nat × EventBuilder × Option TransportCall :=
  let meta_len := b.meta.length
  if meta_len > 65535 then
    (534, b, none)
  else
    let meta2 := (b.meta.set 0 (meta_len % 256)).set 1 ((meta_len >>> 8) % 256)
    let dd := [EventDataDescriptor.from_raw_bytes provider_meta 2,
               EventDataDescriptor.from_raw_bytes meta2 1,
               EventDataDescriptor.from_raw_bytes b.data 0]
    (transport b.descriptor (activity_id.map Guid.as_bytes_raw)
        (related_id.map Guid.as_bytes_raw) dd,
     ⟨meta2, b.data, b.descriptor⟩,
     some ⟨b.descriptor, activity_id.map Guid.as_bytes_raw,
       related_id.map Guid.as_bytes_raw, dd⟩)

end EventBuilder

/-- The three-way variable-length tag scheme described by the C7 claim:
1 byte if tag and 0x0FE00000 == tag, 2 bytes if tag and 0x0FFFC000 == tag,
otherwise 4 bytes, each non-final byte or-ed with the continuation bit
0x80. -/
def three_way_tag (tag : Nat) : List Nat :=
  if tag &&& 0x0FE00000 = tag then
    [tag >>> 21]
  else if tag &&& 0x0FFFC000 = tag then
    [(tag >>> 21) ||| 0x80, (tag >>> 14) &&& 0x7F]
  else
    [(tag >>> 21) ||| 0x80, ((tag >>> 14) &&& 0x7F) ||| 0x80,
     ((tag >>> 7) &&& 0x7F) ||| 0x80, tag &&& 0x7F]

/-- Disjoint bitwise or is addition: a shifted value or-ed with a small
value below the shift amount. -/
theorem shiftLeft_or_eq_add {a b k : Nat} (hb : b < 2 ^ k) :
    (a <<< k) ||| b = a * 2 ^ k + b := by
  rw [Nat.shiftLeft_eq, Nat.mul_comm a (2 ^ k), ← Nat.mul_add_lt_is_or hb a]

theorem u64_from_be_bytes_lt {b : List Nat} (h : ∀ i, b.getD i 0 < 256) :
    u64_from_be_bytes b < 2 ^ 64 := by
  have h0 := h 0; have h1 := h 1; have h2 := h 2; have h3 := h 3
  have h4 := h 4; have h5 := h 5; have h6 := h 6; have h7 := h 7
  unfold u64_from_be_bytes
  omega

namespace Guid

theorem to_u128_eq_add (g : Guid) (hg : g.WellFormed) :
    g.to_u128 = g.data1 * 2 ^ 96 + g.data2 * 2 ^ 80 + g.data3 * 2 ^ 64 +
      u64_from_be_bytes g.data4 := by
  obtain ⟨h1, h2, h3, _, h4⟩ := hg
  have hb : u64_from_be_bytes g.data4 < 2 ^ 64 := u64_from_be_bytes_lt h4
  unfold to_u128
  have e3 : (g.data3 <<< 64) ||| u64_from_be_bytes g.data4 =
      g.data3 * 2 ^ 64 + u64_from_be_bytes g.data4 := shiftLeft_or_eq_add hb
  have lt3 : g.data3 * 2 ^ 64 + u64_from_be_bytes g.data4 < 2 ^ 80 := by
    have : g.data3 * 2 ^ 64 ≤ (2 ^ 16 - 1) * 2 ^ 64 :=
      Nat.mul_le_mul_right _ (by omega)
    omega
  have e2 : (g.data2 <<< 80) ||| (g.data3 * 2 ^ 64 + u64_from_be_bytes g.data4) =
      g.data2 * 2 ^ 80 + (g.data3 * 2 ^ 64 + u64_from_be_bytes g.data4) :=
    shiftLeft_or_eq_add lt3
  have lt2 : g.data2 * 2 ^ 80 + (g.data3 * 2 ^ 64 + u64_from_be_bytes g.data4) < 2 ^ 96 := by
    have : g.data2 * 2 ^ 80 ≤ (2 ^ 16 - 1) * 2 ^ 80 :=
      Nat.mul_le_mul_right _ (by omega)
    omega
  have e1 : (g.data1 <<< 96) ||| (g.data2 * 2 ^ 80 +
      (g.data3 * 2 ^ 64 + u64_from_be_bytes g.data4)) =
      g.data1 * 2 ^ 96 + (g.data2 * 2 ^ 80 +
      (g.data3 * 2 ^ 64 + u64_from_be_bytes g.data4)) :=
    shiftLeft_or_eq_add lt2
  rw [Nat.lor_assoc, Nat.lor_assoc, e3, e2, e1]
  ring

end Guid

/-- A list of length 8 equals the literal list of its first eight elements. -/
theorem list_eq_of_length_eight (l : List Nat) (h : l.length = 8) :
    l = [l.getD 0 0, l.getD 1 0, l.getD 2 0, l.getD 3 0,
         l.getD 4 0, l.getD 5 0, l.getD 6 0, l.getD 7 0] := by
  rcases l with _ | ⟨a0, l⟩
  · simp at h
  rcases l with _ | ⟨a1, l⟩
  · simp at h
  rcases l with _ | ⟨a2, l⟩
  · simp at h
  rcases l with _ | ⟨a3, l⟩
  · simp at h
  rcases l with _ | ⟨a4, l⟩
  · simp at h
  rcases l with _ | ⟨a5, l⟩
  · simp at h
  rcases l with _ | ⟨a6, l⟩
  · simp at h
  rcases l with _ | ⟨a7, l⟩
  · simp at h
  rcases l with _ | ⟨a8, l⟩
  · rfl
  · simp at h

namespace Guid

theorem from_bytes_be_to_bytes_be (g : Guid) (hg : g.WellFormed) :
    from_bytes_be (to_bytes_be g) = g := by
  obtain ⟨h1, h2, h3, hlen, hb⟩ := hg
  obtain ⟨d1, d2, d3, d4⟩ := g
  simp only [from_bytes_be, to_bytes_be, mk.injEq] at *
  refine ⟨?_, ?_, ?_, ?_⟩
  · simp only [u32_from_be_bytes, toU8, List.getD_cons_zero, List.getD_cons_succ,
      Nat.shiftRight_eq_div_pow]
    omega
  · simp only [u16_from_be_bytes, toU8, List.getD_cons_zero, List.getD_cons_succ,
      Nat.shiftRight_eq_div_pow]
    omega
  · simp only [u16_from_be_bytes, toU8, List.getD_cons_zero, List.getD_cons_succ,
      Nat.shiftRight_eq_div_pow]
    omega
  · have := list_eq_of_length_eight d4 hlen
    simp only [List.getD_cons_zero, List.getD_cons_succ]
    exact this.symm

theorem from_bytes_le_to_bytes_le (g : Guid) (hg : g.WellFormed) :
    from_bytes_le (to_bytes_le g) = g := by
  obtain ⟨h1, h2, h3, hlen, hb⟩ := hg
  obtain ⟨d1, d2, d3, d4⟩ := g
  simp only [from_bytes_le, to_bytes_le, mk.injEq] at *
  refine ⟨?_, ?_, ?_, ?_⟩
  · simp only [u32_from_le_bytes, toU8, List.getD_cons_zero, List.getD_cons_succ,
      Nat.shiftRight_eq_div_pow]
    omega
  · simp only [u16_from_le_bytes, toU8, List.getD_cons_zero, List.getD_cons_succ,
      Nat.shiftRight_eq_div_pow]
    omega
  · simp only [u16_from_le_bytes, toU8, List.getD_cons_zero, List.getD_cons_succ,
      Nat.shiftRight_eq_div_pow]
    omega
  · have := list_eq_of_length_eight d4 hlen
    simp only [List.getD_cons_zero, List.getD_cons_succ]
    exact this.symm

theorem from_u128_to_u128 (g : Guid) (hg : g.WellFormed) :
    from_u128 (to_u128 g) = g := by
  have key := to_u128_eq_add g hg
  obtain ⟨h1, h2, h3, hlen, hb⟩ := hg
  have hball : ∀ i, g.data4.getD i 0 < 256 := hb
  have ht : u64_from_be_bytes g.data4 < 2 ^ 64 := u64_from_be_bytes_lt hball
  obtain ⟨d1, d2, d3, d4⟩ := g
  simp only at *
  set t := u64_from_be_bytes d4 with htdef
  simp only [from_u128, key, mk.injEq]
  refine ⟨?_, ?_, ?_, ?_⟩
  · simp only [Nat.shiftRight_eq_div_pow]
    omega
  · simp only [Nat.shiftRight_eq_div_pow]
    omega
  · simp only [Nat.shiftRight_eq_div_pow]
    omega
  · have hx : (d1 * 2 ^ 96 + d2 * 2 ^ 80 + d3 * 2 ^ 64 + t) % 2 ^ 64 = t := by
      omega
    rw [hx]
    have h0 := hball 0; have hb1 := hball 1; have hb2 := hball 2; have hb3 := hball 3
    have hb4 := hball 4; have hb5 := hball 5; have hb6 := hball 6; have hb7 := hball 7
    rw [list_eq_of_length_eight d4 hlen]
    simp only [u64_be_bytes, toU8, htdef, u64_from_be_bytes, Nat.shiftRight_eq_div_pow,
      List.getD_cons_zero, List.getD_cons_succ, List.cons.injEq, and_true]
    refine ⟨?_, ?_, ?_, ?_, ?_, ?_, ?_, ?_⟩ <;> omega

end Guid

/-- C9: for every well-formed Guid G, from_bytes_be(to_bytes_be(G)) == G,
from_bytes_le(to_bytes_le(G)) == G, and from_u128(to_u128(G)) == G. -/
theorem guid_round_trips (g : Guid) (hg : g.WellFormed) :
    Guid.from_bytes_be (Guid.to_bytes_be g) = g ∧
    Guid.from_bytes_le (Guid.to_bytes_le g) = g ∧
    Guid.from_u128 (Guid.to_u128 g) = g :=
  ⟨Guid.from_bytes_be_to_bytes_be g hg, Guid.from_bytes_le_to_bytes_le g hg,
   Guid.from_u128_to_u128 g hg⟩

/-- C9 witness: the round trips evaluated at the concrete Guid from the
guid.rs doctests, a3a2a1a0-b1b0-c1c0-d7d6-d5d4d3d2d1d0. -/
theorem guid_round_trips_witness :
    (Guid.from_fields 0xa3a2a1a0 0xb1b0 0xc1c0
        [0xd7, 0xd6, 0xd5, 0xd4, 0xd3, 0xd2, 0xd1, 0xd0]).WellFormed ∧
    Guid.from_bytes_be (Guid.to_bytes_be (Guid.from_fields 0xa3a2a1a0 0xb1b0 0xc1c0
        [0xd7, 0xd6, 0xd5, 0xd4, 0xd3, 0xd2, 0xd1, 0xd0])) =
      Guid.from_fields 0xa3a2a1a0 0xb1b0 0xc1c0
        [0xd7, 0xd6, 0xd5, 0xd4, 0xd3, 0xd2, 0xd1, 0xd0] ∧
    Guid.from_u128 (Guid.to_u128 (Guid.from_fields 0xa3a2a1a0 0xb1b0 0xc1c0
        [0xd7, 0xd6, 0xd5, 0xd4, 0xd3, 0xd2, 0xd1, 0xd0])) =
      Guid.from_fields 0xa3a2a1a0 0xb1b0 0xc1c0
        [0xd7, 0xd6, 0xd5, 0xd4, 0xd3, 0xd2, 0xd1, 0xd0] :=
  ⟨by decide,
   (guid_round_trips _ (by decide)).1,
   (guid_round_trips _ (by decide)).2.2⟩

set_option maxRecDepth 40000 in
/-- C2: Guid::from_name is case-insensitive on the documented example and
reproduces the fixed known hash value:
from_name(myprovider) == from_name(MYPROVIDER)
== from_u128(0xb3864c38427358c5545b8b3608343471). -/
theorem from_name_known_value :
    Guid.from_name myproviderLower = Guid.from_name myproviderUpper ∧
    Guid.from_name myproviderLower =
      Guid.from_u128 0xb3864c38427358c5545b8b3608343471 := by
  constructor
  · decide
  · decide

/-!
Equivalence of the streaming hasher with the one-shot SHA-1: state
characterization of Sha1NonSecret after writing a byte list.
-/

namespace Sha1NonSecret

theorem write_append (s : Sha1NonSecret) (a b : List Nat) :
    s.write (a ++ b) = (s.write a).write b := by
  simp [write, List.foldl_append]

theorem foldl_write_eq_write_flatMap (f : Nat → List Nat) (l : List Nat)
    (s : Sha1NonSecret) :
    l.foldl (fun h c => h.write (f c)) s = s.write (l.flatMap f) := by
  induction l generalizing s with
  | nil => rfl
  | cons x xs ih =>
    simp only [List.foldl_cons, List.flatMap_cons]
    rw [write_append]
    exact ih (s.write (f x))

end Sha1NonSecret

theorem chunks64Go_congr :
    ∀ f1 f2 (l : List Nat), l.length ≤ f1 → l.length ≤ f2 →
      chunks64Go f1 l = chunks64Go f2 l := by
  intro f1
  induction f1 with
  | zero =>
    intro f2 l h1 _
    have : l = [] := List.eq_nil_of_length_eq_zero (by omega)
    subst this
    cases f2 <;> rfl
  | succ n ih =>
    intro f2 l h1 h2
    cases l with
    | nil => cases f2 <;> rfl
    | cons x xs =>
      cases f2 with
      | zero => simp at h2
      | succ m =>
        show _ :: chunks64Go n _ = _ :: chunks64Go m _
        congr 1
        apply ih
        · simp at h1 ⊢
          omega
        · simp at h2 ⊢
          omega

theorem chunks64_cons (l : List Nat) (h : l ≠ []) :
    chunks64 l = l.take 64 :: chunks64 (l.drop 64) := by
  cases l with
  | nil => exact absurd rfl h
  | cons x xs =>
    show _ :: chunks64Go xs.length ((x :: xs).drop 64) = _
    congr 1
    unfold chunks64
    apply chunks64Go_congr
    · simp only [List.length_drop, List.length_cons]
      omega
    · exact Nat.le_refl _

theorem set_take_succ {c : List Nat} {p x : Nat} (h : p < c.length) :
    (c.set p x).take (p + 1) = c.take p ++ [x] := by
  rw [List.set_take, List.take_succ]
  rw [List.getElem?_eq_getElem h]
  simp only [Option.toList_some]
  rw [List.set_append]
  simp [List.length_take, Nat.min_eq_left (Nat.le_of_lt h)]

theorem listOverwrite_length :
    ∀ (l c : List Nat) (p : Nat), (listOverwrite c p l).length = c.length := by
  intro l
  induction l with
  | nil => intro c p; rfl
  | cons x xs ih =>
    intro c p
    show (listOverwrite (c.set p x) (p + 1) xs).length = _
    rw [ih]
    simp

theorem listOverwrite_eq :
    ∀ (l c : List Nat) (p : Nat), p + l.length ≤ c.length →
      listOverwrite c p l = c.take p ++ l ++ c.drop (p + l.length) := by
  intro l
  induction l with
  | nil =>
    intro c p h
    show c = _
    simp [List.take_append_drop]
  | cons x xs ih =>
    intro c p h
    have hp : p < c.length := by
      simp only [List.length_cons] at h
      omega
    show listOverwrite (c.set p x) (p + 1) xs = _
    rw [ih (c.set p x) (p + 1)
      (by simp only [List.length_set, List.length_cons] at h ⊢; omega)]
    rw [set_take_succ hp]
    rw [List.drop_set_of_lt _ _ (by omega : p < p + 1 + xs.length)]
    simp only [List.length_cons]
    rw [show p + (xs.length + 1) = p + 1 + xs.length by omega]
    simp

namespace Sha1NonSecret

theorem write_no_drain :
    ∀ (l : List Nat) (s : Sha1NonSecret), s.chunk.length = 64 →
      s.chunk_pos + l.length < 64 →
      s.write l =
        ⟨listOverwrite s.chunk s.chunk_pos l, s.chunk_count,
          s.chunk_pos + l.length, s.results⟩ := by
  intro l
  induction l with
  | nil =>
    intro s h1 h2
    obtain ⟨c, cc, cp, r⟩ := s
    show (⟨c, cc, cp, r⟩ : Sha1NonSecret) = _
    simp [listOverwrite]
  | cons x xs ih =>
    intro s h1 h2
    obtain ⟨c, cc, cp, r⟩ := s
    simp only [List.length_cons] at h2
    simp only at h1 h2
    have hu : write_u8 ⟨c, cc, cp, r⟩ x = ⟨c.set cp x, cc, cp + 1, r⟩ := by
      unfold write_u8
      simp only
      rw [Nat.mod_eq_of_lt (by omega : cp + 1 < 64)]
      rw [if_neg (by omega : ¬ (cp + 1 = 0))]
    show write (write_u8 ⟨c, cc, cp, r⟩ x) xs = _
    rw [hu, ih ⟨c.set cp x, cc, cp + 1, r⟩ (by simp [h1]) (by simp only; omega)]
    have harith : cp + 1 + xs.length = cp + (xs.length + 1) := by omega
    simp only [harith]
    rfl

theorem write_to_boundary :
    ∀ (l : List Nat) (s : Sha1NonSecret), s.chunk.length = 64 →
      s.chunk_pos + l.length = 64 → l ≠ [] →
      s.write l =
        ⟨listOverwrite s.chunk s.chunk_pos l, (s.chunk_count + 1) % 2 ^ 32, 0,
          sha1Compress s.results (listOverwrite s.chunk s.chunk_pos l)⟩ := by
  intro l
  induction l with
  | nil => intro s _ _ hne; exact absurd rfl hne
  | cons x xs ih =>
    intro s h1 h2 _
    obtain ⟨c, cc, cp, r⟩ := s
    simp only [List.length_cons] at h2
    simp only at h1 h2
    cases xs with
    | nil =>
      have hpos : cp = 63 := by
        simp only [List.length_nil] at h2
        omega
      subst hpos
      show write_u8 ⟨c, cc, 63, r⟩ x = _
      unfold write_u8
      norm_num
      rfl
    | cons y ys =>
      have hlt : cp + 1 < 64 := by
        simp only [List.length_cons] at h2
        omega
      have hu : write_u8 ⟨c, cc, cp, r⟩ x = ⟨c.set cp x, cc, cp + 1, r⟩ := by
        unfold write_u8
        simp only
        rw [Nat.mod_eq_of_lt hlt]
        rw [if_neg (by omega : ¬ (cp + 1 = 0))]
      show write (write_u8 ⟨c, cc, cp, r⟩ x) (y :: ys) = _
      rw [hu, ih ⟨c.set cp x, cc, cp + 1, r⟩
        (by show (c.set cp x).length = 64; simp [h1])
        (by show cp + 1 + (y :: ys).length = 64
            simp only [List.length_cons] at h2 ⊢
            omega)
        (by simp)]
      rfl

theorem write_block (l : List Nat) (s : Sha1NonSecret) (h1 : s.chunk.length = 64)
    (h2 : s.chunk_pos = 0) (h3 : l.length = 64) :
    s.write l =
      ⟨l, (s.chunk_count + 1) % 2 ^ 32, 0, sha1Compress s.results l⟩ := by
  have hov : listOverwrite s.chunk s.chunk_pos l = l := by
    have hdrop : s.chunk.drop (0 + l.length) = [] := by
      apply List.drop_eq_nil_of_le
      omega
    rw [h2, listOverwrite_eq l s.chunk 0 (by omega), hdrop]
    simp
  rw [write_to_boundary l s h1 (by omega) (by intro hn; rw [hn] at h3; simp at h3)]
  rw [hov]

theorem write_characterize :
    ∀ (n : Nat) (l : List Nat), l.length = n →
      ∀ (s : Sha1NonSecret), s.chunk.length = 64 → s.chunk_pos = 0 →
        s.chunk_count < 2 ^ 32 →
        (s.write l).chunk.length = 64 ∧
        (s.write l).chunk_pos = l.length % 64 ∧
        (s.write l).chunk_count = (s.chunk_count + l.length / 64) % 2 ^ 32 ∧
        (s.write l).results =
          (chunks64 (l.take (64 * (l.length / 64)))).foldl sha1Compress s.results := by
  intro n
  induction n using Nat.strong_induction_on with
  | _ n ih =>
    intro l hl s hs1 hs2 hs3
    by_cases h64 : l.length < 64
    · rw [write_no_drain l s hs1 (by omega)]
      refine ⟨by simp [listOverwrite_length, hs1], ?_, ?_, ?_⟩
      · simp only [hs2]
        omega
      · have hq : l.length / 64 = 0 := Nat.div_eq_of_lt h64
        simp only [hq]
        omega
      · have hq : l.length / 64 = 0 := Nat.div_eq_of_lt h64
        rw [hq]
        rfl
    · have hge : 64 ≤ l.length := by omega
      have hq1 : 1 ≤ l.length / 64 := by
        rw [Nat.le_div_iff_mul_le (by omega)]
        omega
      have hmul_le : 64 * (l.length / 64) ≤ l.length := by
        rw [Nat.mul_comm]
        exact Nat.div_mul_le_self l.length 64
      have hsplit : l.take 64 ++ l.drop 64 = l := List.take_append_drop 64 l
      have hw : s.write l = (s.write (l.take 64)).write (l.drop 64) := by
        conv_lhs => rw [← hsplit]
        exact s.write_append _ _
      have htl : (l.take 64).length = 64 := by
        simp only [List.length_take]
        omega
      have hblock := write_block (l.take 64) s hs1 hs2 htl
      have hdl : (l.drop 64).length = l.length - 64 := by simp
      have ihd := ih (n - 64) (by omega) (l.drop 64) (by omega)
        (s.write (l.take 64))
        (by rw [hblock]; exact htl)
        (by rw [hblock])
        (by rw [hblock]; exact Nat.mod_lt _ (by norm_num))
      obtain ⟨c1, c2, c3, c4⟩ := ihd
      rw [hw]
      refine ⟨c1, ?_, ?_, ?_⟩
      · rw [c2, hdl]
        omega
      · rw [c3, hdl, hblock]
        simp only
        have h1 : (l.length - 64) / 64 = l.length / 64 - 1 := by omega
        rw [h1]
        generalize l.length / 64 = q at hq1 ⊢
        omega
      · rw [c4, hblock, hdl]
        simp only
        have hlen_take : (l.take (64 * (l.length / 64))).length =
            64 * (l.length / 64) := by
          simp only [List.length_take]
          exact Nat.min_eq_left hmul_le
        have hne : l.take (64 * (l.length / 64)) ≠ [] := by
          apply List.ne_nil_of_length_pos
          rw [hlen_take]
          omega
        rw [chunks64_cons _ hne]
        rw [List.take_take, List.drop_take]
        rw [Nat.min_eq_left (by omega : 64 ≤ 64 * (l.length / 64))]
        have harith : 64 * (l.length / 64) - 64 = 64 * ((l.length - 64) / 64) := by
          omega
        rw [harith]
        rfl

end Sha1NonSecret

theorem finish_eq_sha1_spec (msg : List Nat) (h : msg.length < 2 ^ 38) :
    (Sha1NonSecret.new.write msg).finish = sha1_spec msg := by
  have hnew1 : (Sha1NonSecret.new).chunk.length = 64 := by
    simp [Sha1NonSecret.new]
  have hnew2 : (Sha1NonSecret.new).chunk_count = 0 := rfl
  have hc := Sha1NonSecret.write_characterize msg.length msg rfl
    Sha1NonSecret.new hnew1 rfl (by rw [hnew2]; norm_num)
  obtain ⟨_, h2, h3, _⟩ := hc
  rw [hnew2] at h3
  have hq32 : msg.length / 64 < 2 ^ 32 := by omega
  have hcount : (Sha1NonSecret.new.write msg).chunk_count = msg.length / 64 := by
    rw [h3]
    omega
  simp only [Sha1NonSecret.finish, h2, hcount]
  have hsfx : msg ++ ([0x80] ++
      List.replicate ((56 + 64 - (msg.length % 64 + 1) % 64) % 64) 0 ++
      u64_be_bytes ((msg.length / 64 * 512 + msg.length % 64 * 8) % 2 ^ 64)) =
      sha1_pad msg := by
    unfold sha1_pad
    have e1 : (56 + 64 - (msg.length % 64 + 1) % 64) % 64 =
        (56 + 64 - (msg.length + 1) % 64) % 64 := by omega
    have e2 : (msg.length / 64 * 512 + msg.length % 64 * 8) % 2 ^ 64 =
        (msg.length * 8) % 2 ^ 64 := by omega
    rw [e1, e2]
    simp only [List.append_assoc]
  have hwrite : (Sha1NonSecret.new.write msg).write ([0x80] ++
      List.replicate ((56 + 64 - (msg.length % 64 + 1) % 64) % 64) 0 ++
      u64_be_bytes ((msg.length / 64 * 512 + msg.length % 64 * 8) % 2 ^ 64)) =
      Sha1NonSecret.new.write (sha1_pad msg) := by
    rw [← Sha1NonSecret.write_append, hsfx]
  rw [hwrite]
  have hpadlen : (sha1_pad msg).length =
      msg.length + 1 + (56 + 64 - (msg.length + 1) % 64) % 64 + 8 := by
    unfold sha1_pad
    have h8 : (u64_be_bytes ((msg.length * 8) % 2 ^ 64)).length = 8 := rfl
    simp only [List.length_append, List.length_replicate, List.length_cons,
      List.length_nil, h8]
  have hpad64 : (sha1_pad msg).length % 64 = 0 := by
    rw [hpadlen]
    omega
  have hpc := Sha1NonSecret.write_characterize (sha1_pad msg).length (sha1_pad msg)
    rfl Sha1NonSecret.new hnew1 rfl (by rw [hnew2]; norm_num)
  obtain ⟨_, _, _, hres⟩ := hpc
  rw [hres]
  have hfull : 64 * ((sha1_pad msg).length / 64) = (sha1_pad msg).length := by
    omega
  rw [hfull, List.take_length]
  rfl

set_option maxRecDepth 40000 in
/-- C1 counterexample: the claim as stated interprets the patched digest in
RFC (big-endian) byte order, but Guid::from_name disagrees with that
pipeline already at the name myprovider (the source calls from_bytes_le). -/
theorem from_name_not_spec_be :
    ¬ (Guid.from_name_with Guid.rust_char_to_uppercase myproviderLower =
        from_name_spec_be Guid.rust_char_to_uppercase myproviderLower) := by
  decide

/-- C1 (amended): for every provider name text and every case-folding
expansion, Guid::from_name computes a SHA-1 digest over the fixed 16-byte
namespace constant followed by the upper-cased input re-encoded as
big-endian UTF-16 code units, takes the first 16 digest bytes, overwrites
byte 7 with (byte7 and 0x0F) or 0x50, and interprets those 16 bytes in
Windows (little-endian) byte order. The length bound reflects the
documented 2 pow 32 - 1 chunk limit of the embedded hasher. -/
theorem from_name_algorithm_le (upper : Nat → List Nat) (name : List Nat)
    (h : (from_name_message upper name).length < 2 ^ 38) :
    Guid.from_name_with upper name = from_name_spec_le upper name := by
  simp only [Guid.from_name_with, from_name_spec_le]
  rw [Sha1NonSecret.foldl_write_eq_write_flatMap]
  rw [← Sha1NonSecret.write_append]
  have hmsg : Guid.from_name_namespace ++
      (name.flatMap upper).flatMap Guid.utf16be_bytes_of_char =
      from_name_message upper name := rfl
  rw [hmsg, finish_eq_sha1_spec _ h]
  rfl

set_option maxRecDepth 40000 in
/-- C1 witness: the amended algorithm description evaluated at the name
myprovider with the ASCII case folding. -/
theorem from_name_algorithm_le_witness :
    Guid.from_name_with Guid.rust_char_to_uppercase myproviderLower =
      from_name_spec_le Guid.rust_char_to_uppercase myproviderLower :=
  from_name_algorithm_le Guid.rust_char_to_uppercase myproviderLower (by decide)


/-!
Remaining claims: enabled, tag encoding, FILETIME, descriptors, builder.
-/

/-- C3: enabled(level, keyword) is true iff the context is registered, the
caller level is numerically at most the stored filter level, and the
keyword test passes: keyword 0 always passes; a nonzero keyword passes
exactly when it shares a bit with the any mask and contains every bit of
the all mask. Uses the state invariant that an unregistered context has
level -1 (specification section 3). -/
theorem enabled_iff (s : ProviderContextInner) (level keyword : Nat)
    (hlvl : level < 256) (hinv : s.reg_handle = 0 → s.level = -1) :
    (ProviderContextInner.enabled s level keyword = true ↔
      (ProviderContextInner.registered s ∧ (level : Int) ≤ s.level ∧
        (keyword = 0 ∨ ((keyword &&& s.keyword_any) ≠ 0 ∧
          (keyword &&& s.keyword_all) = s.keyword_all)))) := by
  unfold ProviderContextInner.enabled ProviderContextInner.enabled_keyword
    ProviderContextInner.registered
  simp only [Bool.and_eq_true, decide_eq_true_eq, Bool.or_eq_true, beq_iff_eq,
    bne_iff_ne, ne_eq]
  constructor
  · rintro ⟨hle, hkw⟩
    refine ⟨?_, hle, ?_⟩
    · intro h0
      rw [hinv h0] at hle
      omega
    · rcases hkw with h | ⟨h1, h2⟩
      · exact Or.inl h
      · exact Or.inr ⟨h1, h2⟩
  · rintro ⟨_, hle, hkw⟩
    refine ⟨hle, ?_⟩
    rcases hkw with h | ⟨h1, h2⟩
    · exact Or.inl h
    · exact Or.inr ⟨h1, h2⟩

/-- C3 witness: the iff evaluated at a registered context with filter
level 5, any mask 0xFF, all mask 0x3, caller level 3 and keyword 0x13. -/
theorem enabled_iff_witness :
    (ProviderContextInner.enabled ⟨5, false, 7, 0xFF, 0x3, 0⟩ 3 0x13 = true ↔
      (ProviderContextInner.registered ⟨5, false, 7, 0xFF, 0x3, 0⟩ ∧
        ((3 : Nat) : Int) ≤ (5 : Int) ∧
        ((0x13 : Nat) = 0 ∨ (((0x13 : Nat) &&& 0xFF) ≠ 0 ∧
          ((0x13 : Nat) &&& 0x3) = 0x3)))) :=
  enabled_iff ⟨5, false, 7, 0xFF, 0x3, 0⟩ 3 0x13 (by decide) (by decide)

/-- C6: tag_size returns 1 when the low 21 bits of the 28-bit tag are
zero, 2 when the low 14 bits are zero, 3 when the low 7 bits are zero,
else 4; and at the documented thresholds tag_size gives 1/1/2/4 and
tag_encode gives the documented byte sequences. -/
theorem tag_size_tag_encode (tag : Nat) (h28 : tag < 2 ^ 28) :
    (tag_size tag = if tag % 2 ^ 21 = 0 then 1 else if tag % 2 ^ 14 = 0 then 2
      else if tag % 2 ^ 7 = 0 then 3 else 4) ∧
    tag_size 0 = 1 ∧ tag_size 0x0FE00000 = 1 ∧ tag_size 0x0FF00000 = 2 ∧
    tag_size 0x0FFFFFFF = 4 ∧
    tag_encode (tag_size 0) 0 = [0x00] ∧
    tag_encode (tag_size 0x0FE00000) 0x0FE00000 = [0x7F] ∧
    tag_encode (tag_size 0x0FF00000) 0x0FF00000 = [0xFF, 0x40] ∧
    tag_encode (tag_size 0x0FFFFFFF) 0x0FFFFFFF = [0xFF, 0xFF, 0xFF, 0x7F] := by
  refine ⟨?_, by decide, by decide, by decide, by decide, by decide, by decide,
    by decide, by decide⟩
  have e21 : tag &&& 0x001FFFFF = tag % 2 ^ 21 := by
    have h := Nat.and_pow_two_sub_one_eq_mod tag 21
    norm_num at h ⊢
    exact h
  have e14 : tag &&& 0x00003FFF = tag % 2 ^ 14 := by
    have h := Nat.and_pow_two_sub_one_eq_mod tag 14
    norm_num at h ⊢
    exact h
  have e7 : tag &&& 0x0000007F = tag % 2 ^ 7 := by
    have h := Nat.and_pow_two_sub_one_eq_mod tag 7
    norm_num at h ⊢
    exact h
  unfold tag_size
  rw [e21, e14, e7]
  split_ifs <;> omega

/-- C6 witness: the uniform description of tag_size evaluated at the
28-bit tag 0x0FF00000. -/
theorem tag_size_tag_encode_witness :
    tag_size 0x0FF00000 = (if 0x0FF00000 % 2 ^ 21 = 0 then 1
      else if 0x0FF00000 % 2 ^ 14 = 0 then 2
      else if 0x0FF00000 % 2 ^ 7 = 0 then 3 else 4) ∧
    tag_encode (tag_size 0x0FF00000) 0x0FF00000 = [0xFF, 0x40] :=
  ⟨(tag_size_tag_encode 0x0FF00000 (by decide)).1,
   (tag_size_tag_encode 0x0FF00000 (by decide)).2.2.2.2.2.2.2.1⟩

/-- C5: filetime_from_duration_since_1970 maps the zero positive duration
to the unix epoch FILETIME; saturates to FILETIME_MAX for positive
durations whose seconds exceed the representable range; saturates to 0
for negative durations whose seconds exceed the representable range; and
in the non-saturating cases returns epoch plus-or-minus (seconds times
10000000 plus nanoseconds/100) ticks, where the sub-second truncation on
the negative branch rounds toward the earlier instant (ceiling division)
rather than toward zero. -/
theorem filetime_saturation (secs nanos : Nat) (hn : nanos < NANOS_MAX) :
    filetime_from_duration_since_1970 0 0 true = 0x19DB1DED53E8000 ∧
    (SECS_MAX_POS < secs →
      filetime_from_duration_since_1970 secs nanos true = 0x7FFF35F4F06C7FFF) ∧
    (SECS_MAX_NEG < secs →
      filetime_from_duration_since_1970 secs nanos false = 0) ∧
    (secs ≤ SECS_MAX_POS →
      filetime_from_duration_since_1970 secs nanos true =
        (UNIX_EPOCH_FILETIME : Int) +
          ((secs * FILETIME_PER_SECOND : Nat) : Int) +
          ((nanos / NANOS_PER_FILETIME : Nat) : Int)) ∧
    (secs ≤ SECS_MAX_NEG →
      filetime_from_duration_since_1970 secs nanos false =
        (UNIX_EPOCH_FILETIME : Int) -
          ((secs * FILETIME_PER_SECOND : Nat) : Int) -
          (((nanos + NANOS_PER_FILETIME - 1) / NANOS_PER_FILETIME : Nat) : Int)) := by
  simp only [NANOS_MAX] at hn
  refine ⟨by decide, ?_, ?_, ?_, ?_⟩
  · intro h
    simp only [SECS_MAX_POS, FILETIME_MAX, UNIX_EPOCH_FILETIME,
      FILETIME_PER_SECOND] at h
    simp only [filetime_from_duration_since_1970, SECS_MAX_POS, SECS_MAX_NEG,
      FILETIME_MAX, UNIX_EPOCH_FILETIME, FILETIME_PER_SECOND, NANOS_MAX,
      NANOS_PER_FILETIME, if_true]
    rw [if_neg (by omega)]
    decide
  · intro h
    simp only [SECS_MAX_NEG, UNIX_EPOCH_FILETIME, FILETIME_PER_SECOND] at h
    simp only [filetime_from_duration_since_1970, SECS_MAX_POS, SECS_MAX_NEG,
      FILETIME_MAX, UNIX_EPOCH_FILETIME, FILETIME_PER_SECOND, NANOS_MAX,
      NANOS_PER_FILETIME, Bool.false_eq_true, if_false]
    rw [if_neg (by omega)]
    decide
  · intro h
    simp only [SECS_MAX_POS, FILETIME_MAX, UNIX_EPOCH_FILETIME,
      FILETIME_PER_SECOND] at h
    simp only [filetime_from_duration_since_1970, SECS_MAX_POS, SECS_MAX_NEG,
      FILETIME_MAX, UNIX_EPOCH_FILETIME, FILETIME_PER_SECOND, NANOS_MAX,
      NANOS_PER_FILETIME, if_true]
    rw [if_pos (by omega)]
    have e1 : (secs * 10000000) % 2 ^ 64 = secs * 10000000 := by omega
    rw [e1]
    have e2 : (0x19DB1DED53E8000 + secs * 10000000) % 2 ^ 64 =
        0x19DB1DED53E8000 + secs * 10000000 := by omega
    rw [e2]
    have e3 : (0x19DB1DED53E8000 + secs * 10000000 + nanos / 100) % 2 ^ 64 =
        0x19DB1DED53E8000 + secs * 10000000 + nanos / 100 := by omega
    rw [e3]
    rw [u64_as_i64, if_pos (by omega)]
    push_cast
    ring
  · intro h
    simp only [SECS_MAX_NEG, UNIX_EPOCH_FILETIME, FILETIME_PER_SECOND] at h
    simp only [filetime_from_duration_since_1970, SECS_MAX_POS, SECS_MAX_NEG,
      FILETIME_MAX, UNIX_EPOCH_FILETIME, FILETIME_PER_SECOND, NANOS_MAX,
      NANOS_PER_FILETIME, Bool.false_eq_true, if_false]
    rw [if_pos (by omega)]
    have f1 : (secs * 10000000) % 2 ^ 64 = secs * 10000000 := by omega
    rw [f1]
    have f2 : (0x19DB1DED53E8000 - 1000000000 / 100 +
        (2 ^ 64 - secs * 10000000)) % 2 ^ 64 =
        0x19DB1DED53E8000 - 10000000 - secs * 10000000 := by omega
    rw [f2]
    have f3 : (0x19DB1DED53E8000 - 10000000 - secs * 10000000 +
        (1000000000 - nanos) / 100) % 2 ^ 64 =
        0x19DB1DED53E8000 - 10000000 - secs * 10000000 +
          (1000000000 - nanos) / 100 := by omega
    rw [f3]
    rw [u64_as_i64, if_pos (by omega)]
    omega

/-- C5 witness: the non-saturating branches evaluated one second after
and one second before the epoch, with 150 nanoseconds of sub-second
offset (which rounds down to 1 tick after the epoch and up to 2 ticks
before it). -/
theorem filetime_saturation_witness :
    filetime_from_duration_since_1970 1 150 true =
      (UNIX_EPOCH_FILETIME : Int) + ((1 * FILETIME_PER_SECOND : Nat) : Int) +
        ((150 / NANOS_PER_FILETIME : Nat) : Int) ∧
    filetime_from_duration_since_1970 1 150 false =
      (UNIX_EPOCH_FILETIME : Int) - ((1 * FILETIME_PER_SECOND : Nat) : Int) -
        (((150 + NANOS_PER_FILETIME - 1) / NANOS_PER_FILETIME : Nat) : Int) :=
  ⟨(filetime_saturation 1 150 (by decide)).2.2.2.1 (by decide),
   (filetime_saturation 1 150 (by decide)).2.2.2.2 (by decide)⟩

/-- C8: counted_size equals the size field of the descriptor built by
from_counted (both clamping to at most 65535 / sz elements), and
slice_count equals the element count of the descriptor built by
from_slice (both clamping to at most 65535 elements). -/
theorem counted_slice_consistency (α : Type) (sz : Nat) (v : List α)
    (hsz : 0 < sz) :
    counted_size sz v = (EventDataDescriptor.from_counted sz v).size ∧
    (EventDataDescriptor.from_counted sz v).data.length ≤ 65535 / sz ∧
    slice_count v = (EventDataDescriptor.from_slice sz v).data.length ∧
    (EventDataDescriptor.from_slice sz v).data.length ≤ 65535 := by
  have hm65535 : 65535 / sz ≤ 65535 := Nat.div_le_self _ _
  have hszmul : sz * (65535 / sz) ≤ 65535 := by
    rw [Nat.mul_comm]
    exact Nat.div_mul_le_self 65535 sz
  refine ⟨?_, ?_, ?_, ?_⟩
  · unfold counted_size EventDataDescriptor.from_counted safe_len
    simp only
    rw [Nat.mod_eq_of_lt (by omega : 65535 / sz < 2 ^ 16)]
    by_cases hc : 65535 / sz < v.length
    · rw [if_pos hc, if_pos hc]
      have hlen : (v.take (65535 / sz)).length = 65535 / sz := by
        rw [List.length_take]
        omega
      rw [hlen]
      by_cases hz : 65535 / sz = 0
      · simp [hz]
      · have hsz16 : sz ≤ 65535 := by
          by_contra hgt
          have hd : 65535 / sz = 0 := Nat.div_eq_of_lt (by omega)
          omega
        have hprod : sz * (65535 / sz) < 2 ^ 16 := by omega
        rw [Nat.mod_eq_of_lt (by omega : sz < 2 ^ 16),
          Nat.mod_eq_of_lt (by omega : sz < 2 ^ 32),
          Nat.mod_eq_of_lt (by omega : 65535 / sz < 2 ^ 32),
          Nat.mod_eq_of_lt hprod,
          Nat.mod_eq_of_lt (by omega : sz * (65535 / sz) < 2 ^ 32)]
    · rw [if_neg hc, if_neg hc]
      have hvlen : v.length ≤ 65535 / sz := by omega
      by_cases hz : v.length = 0
      · simp [hz]
      · have hq : 1 ≤ 65535 / sz := by omega
        have hsz16 : sz ≤ 65535 := by
          by_contra hgt
          have hd : 65535 / sz = 0 := Nat.div_eq_of_lt (by omega)
          omega
        have hb : sz * v.length ≤ sz * (65535 / sz) :=
          Nat.mul_le_mul_left _ hvlen
        rw [Nat.mod_eq_of_lt (by omega : v.length < 2 ^ 16),
          Nat.mod_eq_of_lt (by omega : sz < 2 ^ 16),
          Nat.mod_eq_of_lt (by omega : sz < 2 ^ 32),
          Nat.mod_eq_of_lt (by omega : v.length < 2 ^ 32),
          Nat.mod_eq_of_lt (by omega : sz * v.length < 2 ^ 16),
          Nat.mod_eq_of_lt (by omega : sz * v.length < 2 ^ 32)]
  · unfold EventDataDescriptor.from_counted
    simp only
    by_cases hc : 65535 / sz < v.length
    · rw [if_pos hc]
      simp [List.length_take]
    · rw [if_neg hc]
      omega
  · unfold slice_count EventDataDescriptor.from_slice safe_len
    simp only
    by_cases hc : 65535 < v.length
    · rw [if_pos hc, if_pos hc]
      rw [List.length_take]
      omega
    · rw [if_neg hc, if_neg hc]
      rw [Nat.mod_eq_of_lt (by omega : v.length < 2 ^ 16)]
  · unfold EventDataDescriptor.from_slice
    simp only
    by_cases hc : 65535 < v.length
    · rw [if_pos hc]
      simp [List.length_take]
    · rw [if_neg hc]
      omega

/-- C8 witness: the consistency evaluated for two-byte elements (sz = 2)
on a three-element list. -/
theorem counted_slice_consistency_witness :
    counted_size 2 [10, 20, 30] =
      (EventDataDescriptor.from_counted 2 [10, 20, 30]).size ∧
    slice_count [10, 20, 30] =
      (EventDataDescriptor.from_slice 2 [10, 20, 30]).data.length :=
  ⟨(counted_slice_consistency Nat 2 [10, 20, 30] (by decide)).1,
   (counted_slice_consistency Nat 2 [10, 20, 30] (by decide)).2.2.1⟩

/-- Truncating a byte to u8 before or-ing in the continuation bit equals
masking to 7 bits first: bits 0 to 6 agree, bit 7 is forced, bits above 7
are cleared by both. -/
theorem mod256_or_cont (x : Nat) : (x % 256) ||| 0x80 = (x &&& 0x7F) ||| 0x80 := by
  apply Nat.eq_of_testBit_eq
  intro i
  have h256 : (256 : Nat) = 2 ^ 8 := by norm_num
  have h7f : (0x7F : Nat) = 2 ^ 7 - 1 := by norm_num
  have h80 : (0x80 : Nat) = 2 ^ 7 := by norm_num
  rw [h256, h7f, h80]
  simp only [Nat.testBit_or, Nat.testBit_mod_two_pow, Nat.testBit_and,
    Nat.testBit_two_pow, Nat.testBit_two_pow_sub_one]
  by_cases h7 : i = 7
  · simp [h7]
  · by_cases hlt : i < 7
    · simp [show i < 8 by omega, hlt, show ¬ (7 = i) by omega]
    · simp [show ¬ i < 8 by omega, hlt, show ¬ (7 = i) by omega]

/-- The commuted form of mod256_or_cont. -/
theorem cont_or_mod256 (x : Nat) : 0x80 ||| (x % 256) = 0x80 ||| (x &&& 0x7F) := by
  rw [Nat.lor_comm 0x80 (x % 256), Nat.lor_comm 0x80 (x &&& 0x7F)]
  exact mod256_or_cont x

/-- Truncating to u8 does not change the low 7 bits. -/
theorem mod256_and_7f (x : Nat) : (x % 256) &&& 0x7F = x &&& 0x7F := by
  apply Nat.eq_of_testBit_eq
  intro i
  have h256 : (256 : Nat) = 2 ^ 8 := by norm_num
  have h7f : (0x7F : Nat) = 2 ^ 7 - 1 := by norm_num
  rw [h256, h7f]
  simp only [Nat.testBit_and, Nat.testBit_mod_two_pow, Nat.testBit_two_pow_sub_one]
  by_cases hlt : i < 7
  · simp [show i < 8 by omega, hlt]
  · simp [hlt]

/-- Masking with 0x7F is the identity below 128. -/
theorem and_7f_eq_self {x : Nat} (h : x < 128) : x &&& 0x7F = x := by
  have hm := Nat.and_pow_two_sub_one_eq_mod x 7
  norm_num at hm
  rw [hm]
  omega

/-- C7 counterexample: raw_add_meta encodes the nonzero field tag
0x0FE00000 as four bytes, not with the 1-byte three-way encoding the
claim states it shares with reset. -/
theorem raw_add_meta_not_three_way :
    ¬ ((EventBuilder.new.raw_add_meta [0x41] 4 0 0x0FE00000).meta =
        EventBuilder.new.meta ++ [0x41] ++ [0] ++
          ([0x80 ||| 4, 0x80 ||| 0] ++ three_way_tag 0x0FE00000)) := by
  decide

/-- C7 (amended): for every 28-bit tag, reset encodes the event tag with
the three-way 1/2/4-byte variable-length scheme (non-final bytes or-ed
with 0x80); raw_add_meta encodes every nonzero field tag as exactly four
bytes, the four 7-bit chunks of the tag with the continuation bit 0x80 on
the first three. -/
theorem tag_encoding_schemes (b : EventBuilder) (name : List Nat)
    (level keyword it ot tag : Nat) (h28 : tag < 2 ^ 28) (hnz : tag ≠ 0) :
    (b.reset name level keyword tag).meta =
      [0, 0] ++ three_way_tag tag ++ name ++ [0] ∧
    (b.raw_add_meta name it ot tag).meta =
      b.meta ++ name ++ [0] ++
        [0x80 ||| it, 0x80 ||| ot,
         0x80 ||| ((tag >>> 21) &&& 0x7F), 0x80 ||| ((tag >>> 14) &&& 0x7F),
         0x80 ||| ((tag >>> 7) &&& 0x7F), 0x7F &&& tag] := by
  have h21 : tag >>> 21 < 128 := by
    rw [Nat.shiftRight_eq_div_pow]
    omega
  constructor
  · simp only [EventBuilder.reset, three_way_tag]
    split_ifs with h1 h2
    · rw [Nat.mod_eq_of_lt (by omega : tag >>> 21 < 256)]
    · rw [Nat.mod_eq_of_lt (by omega : tag >>> 21 < 256), mod256_and_7f]
    · rw [Nat.mod_eq_of_lt (by omega : tag >>> 21 < 256), mod256_or_cont,
        mod256_or_cont, mod256_and_7f]
  · simp only [EventBuilder.raw_add_meta]
    rw [if_pos hnz]
    rw [cont_or_mod256, cont_or_mod256, cont_or_mod256]
    rw [and_7f_eq_self h21]
    have hle : 0x7F &&& tag ≤ 0x7F := Nat.and_le_left
    rw [Nat.mod_eq_of_lt (by omega : 0x7F &&& tag < 256)]

/-- C7 witness: the amended encodings evaluated at the 28-bit tag
0x0FF00000 on a fresh builder. -/
theorem tag_encoding_schemes_witness :
    (EventBuilder.new.reset [0x41] 5 1 0x0FF00000).meta =
      [0, 0] ++ three_way_tag 0x0FF00000 ++ [0x41] ++ [0] ∧
    (EventBuilder.new.raw_add_meta [0x41] 4 0 0x0FF00000).meta =
      EventBuilder.new.meta ++ [0x41] ++ [0] ++
        [0x80 ||| 4, 0x80 ||| 0,
         0x80 ||| ((0x0FF00000 >>> 21) &&& 0x7F),
         0x80 ||| ((0x0FF00000 >>> 14) &&& 0x7F),
         0x80 ||| ((0x0FF00000 >>> 7) &&& 0x7F), 0x7F &&& 0x0FF00000] :=
  tag_encoding_schemes EventBuilder.new [0x41] 5 1 4 0 0x0FF00000
    (by decide) (by decide)

/-- An element of a list at an index other than the one being set is
unchanged. -/
theorem getD_set_ne (l : List Nat) (j v i : Nat) (h : j ≠ i) :
    (l.set j v).getD i 0 = l.getD i 0 := by
  simp [List.getD, List.getElem?_set_ne h]

/-- C4: EventBuilder::write returns 534 without calling the native
transport when the metadata buffer exceeds 65535 bytes; otherwise it
patches the little-endian metadata size into the 2-byte placeholder and
forwards exactly three data descriptors to the native transport: the
provider metadata with reserved discriminant 2, the patched event
metadata with discriminant 1, the event data with discriminant 0. -/
theorem write_result
    (transport : EventDescriptor → Option (List Nat) → Option (List Nat) →
      List (EventDataDescriptor Nat) → Nat)
    (b : EventBuilder) (pm : List Nat) (aid rid : Option Guid) :
    (65535 < b.meta.length →
      EventBuilder.write transport b pm aid rid = (534, b, none)) ∧
    (b.meta.length ≤ 65535 →
      ∃ c : TransportCall,
        (EventBuilder.write transport b pm aid rid).2.2 = some c ∧
        c.descriptor = b.descriptor ∧
        c.data = [EventDataDescriptor.from_raw_bytes pm 2,
          EventDataDescriptor.from_raw_bytes
            (EventBuilder.write transport b pm aid rid).2.1.meta 1,
          EventDataDescriptor.from_raw_bytes b.data 0] ∧
        (EventBuilder.write transport b pm aid rid).2.1.meta.getD 0 0 +
          256 * (EventBuilder.write transport b pm aid rid).2.1.meta.getD 1 0 =
            b.meta.length ∧
        (EventBuilder.write transport b pm aid rid).1 =
          transport b.descriptor (aid.map Guid.as_bytes_raw)
            (rid.map Guid.as_bytes_raw) c.data) := by
  constructor
  · intro h
    simp only [EventBuilder.write]
    rw [if_pos h]
  · intro h
    simp only [EventBuilder.write]
    rw [if_neg (by omega)]
    refine ⟨_, rfl, rfl, rfl, ?_, rfl⟩
    rcases b with ⟨m, d, ds⟩
    simp only
    rcases m with _ | ⟨x, m1⟩
    · simp
    rcases m1 with _ | ⟨y, m2⟩
    · simp [List.getD]
    · simp only [List.length_cons] at h ⊢
      simp only [List.set_cons_zero, List.set_cons_succ, List.getD_cons_zero,
        List.getD_cons_succ]
      rw [Nat.shiftRight_eq_div_pow]
      omega

/-- C4 witness: the non-overflow conclusion evaluated on a freshly reset
builder written through a transport stub. -/
theorem write_result_witness :
    ∃ c : TransportCall,
      (EventBuilder.write (fun _ _ _ _ => 0)
          (EventBuilder.new.reset [0x41] 5 1 0) [9, 9] none none).2.2 = some c ∧
      c.descriptor = (EventBuilder.new.reset [0x41] 5 1 0).descriptor ∧
      c.data = [EventDataDescriptor.from_raw_bytes [9, 9] 2,
        EventDataDescriptor.from_raw_bytes
          (EventBuilder.write (fun _ _ _ _ => 0)
            (EventBuilder.new.reset [0x41] 5 1 0) [9, 9] none none).2.1.meta 1,
        EventDataDescriptor.from_raw_bytes
          (EventBuilder.new.reset [0x41] 5 1 0).data 0] ∧
      (EventBuilder.write (fun _ _ _ _ => 0)
          (EventBuilder.new.reset [0x41] 5 1 0) [9, 9] none none).2.1.meta.getD 0 0 +
        256 * (EventBuilder.write (fun _ _ _ _ => 0)
          (EventBuilder.new.reset [0x41] 5 1 0) [9, 9] none none).2.1.meta.getD 1 0 =
          (EventBuilder.new.reset [0x41] 5 1 0).meta.length ∧
      (EventBuilder.write (fun _ _ _ _ => 0)
          (EventBuilder.new.reset [0x41] 5 1 0) [9, 9] none none).1 =
        (fun _ _ _ _ => (0 : Nat)) (EventBuilder.new.reset [0x41] 5 1 0).descriptor
          (Option.map Guid.as_bytes_raw none) (Option.map Guid.as_bytes_raw none)
          c.data :=
  (write_result (fun _ _ _ _ => 0) (EventBuilder.new.reset [0x41] 5 1 0)
    [9, 9] none none).2 (by decide)

/-- C10: EventBuilder::write modifies only the two size-placeholder bytes
of the metadata buffer: on the overflow path the builder is unchanged, on
the success path the data buffer, the descriptor, the metadata length and
every metadata byte from index 2 on are unchanged, and calling write
again on the updated builder gives the same outcome, so write may be
called repeatedly on the same built event. -/
theorem write_frame
    (transport : EventDescriptor → Option (List Nat) → Option (List Nat) →
      List (EventDataDescriptor Nat) → Nat)
    (b : EventBuilder) (pm : List Nat) (aid rid : Option Guid) :
    (65535 < b.meta.length →
      (EventBuilder.write transport b pm aid rid).2.1 = b) ∧
    (b.meta.length ≤ 65535 →
      (EventBuilder.write transport b pm aid rid).2.1.data = b.data ∧
      (EventBuilder.write transport b pm aid rid).2.1.descriptor = b.descriptor ∧
      (EventBuilder.write transport b pm aid rid).2.1.meta.length = b.meta.length ∧
      (∀ i, 2 ≤ i →
        (EventBuilder.write transport b pm aid rid).2.1.meta.getD i 0 =
          b.meta.getD i 0) ∧
      EventBuilder.write transport
          (EventBuilder.write transport b pm aid rid).2.1 pm aid rid =
        EventBuilder.write transport b pm aid rid) := by
  constructor
  · intro h
    simp only [EventBuilder.write]
    rw [if_pos h]
  · intro h
    have hnot : ¬ (65535 < b.meta.length) := by omega
    have hlen : ((b.meta.set 0 (b.meta.length % 256)).set 1
        ((b.meta.length >>> 8) % 256)).length = b.meta.length := by
      simp
    refine ⟨?_, ?_, ?_, ?_, ?_⟩
    · simp only [EventBuilder.write]
      rw [if_neg hnot]
    · simp only [EventBuilder.write]
      rw [if_neg hnot]
    · simp only [EventBuilder.write]
      rw [if_neg hnot]
      exact hlen
    · intro i hi
      simp only [EventBuilder.write]
      rw [if_neg hnot]
      show (((b.meta.set 0 (b.meta.length % 256)).set 1
        ((b.meta.length >>> 8) % 256)).getD i 0) = b.meta.getD i 0
      rw [getD_set_ne _ _ _ _ (by omega), getD_set_ne _ _ _ _ (by omega)]
    · have hset : ((b.meta.set 0 (b.meta.length % 256)).set 1
          ((b.meta.length >>> 8) % 256)).set 0 (b.meta.length % 256) =
          (b.meta.set 0 (b.meta.length % 256)).set 1
            ((b.meta.length >>> 8) % 256) := by
        rw [List.set_comm _ _ _ (by omega : (1 : Nat) ≠ 0), List.set_set]
      conv_lhs =>
        simp only [EventBuilder.write]
        rw [if_neg hnot]
      simp only [EventBuilder.write]
      rw [if_neg (by rw [hlen]; omega), if_neg hnot]
      rw [hlen, hset, List.set_set]

/-- C10 witness: the success-path frame conditions evaluated on a freshly
reset builder written through a transport stub. -/
theorem write_frame_witness :
    (EventBuilder.write (fun _ _ _ _ => 0)
        (EventBuilder.new.reset [0x41] 5 1 0) [9, 9] none none).2.1.data =
      (EventBuilder.new.reset [0x41] 5 1 0).data ∧
    (EventBuilder.write (fun _ _ _ _ => 0)
        (EventBuilder.new.reset [0x41] 5 1 0) [9, 9] none none).2.1.meta.length =
      (EventBuilder.new.reset [0x41] 5 1 0).meta.length ∧
    EventBuilder.write (fun _ _ _ _ => 0)
        (EventBuilder.write (fun _ _ _ _ => 0)
          (EventBuilder.new.reset [0x41] 5 1 0) [9, 9] none none).2.1
        [9, 9] none none =
      EventBuilder.write (fun _ _ _ _ => 0)
        (EventBuilder.new.reset [0x41] 5 1 0) [9, 9] none none :=
  ⟨((write_frame (fun _ _ _ _ => 0) (EventBuilder.new.reset [0x41] 5 1 0)
      [9, 9] none none).2 (by decide)).1,
   ((write_frame (fun _ _ _ _ => 0) (EventBuilder.new.reset [0x41] 5 1 0)
      [9, 9] none none).2 (by decide)).2.2.1,
   ((write_frame (fun _ _ _ _ => 0) (EventBuilder.new.reset [0x41] 5 1 0)
      [9, 9] none none).2 (by decide)).2.2.2.2⟩

end TraceLogging
